import Mathlib

/-!
# EcoGuard autofocus demo, checked against its specification

Shallow embedding of `src/Autofocus.py` (ArduCAM IMX219 autofocus demo).
The script has two parts with logical content:

* `set_focus(step)` (lines 11-26): validates `0 <= step <= 1023`, encodes the
  step into two I2C payload bytes, and issues one `i2cset` transport write.
* `autofocus_demo()` (lines 51-114): a per-frame loop over the mutable
  variables `max_step, max_metric, last_metric, dec_frames, step, finished`.
  While `dec_frames < 6 and step < 1020` it commands `step`, scores the frame,
  updates the best-seen pair on strict improvement, updates the decline counter
  (increment on strict decrease, reset otherwise), and advances `step` by 10;
  otherwise, if not yet `finished`, it commands `max_step` once and sets
  `finished`.

Rendering choices: sharpness scores (Python floats that are only compared,
never arithmetically combined) are modelled as rationals; the frame/display
plumbing is dropped and one loop iteration becomes a `tick` consuming one
score; the I2C write is modelled by recording the issued payload, with a
fallible variant (`tickF`/`runF`) that injects per-tick transport outcomes to
model `subprocess.CalledProcessError`.
-/

set_option maxRecDepth 8192

namespace Autofocus

/-- Byte encoding of `set_focus` (lines 19-21):
`value = (step << 4) & 0x3FF0`, `data1 = (value >> 8) & 0x3F`,
`data2 = value & 0xF0`. -/
def encode (step : Nat) : Nat × Nat :=
  let value := (step <<< 4) &&& 0x3FF0
  ((value >>> 8) &&& 0x3F, value &&& 0xF0)

/-- Outcome of one `set_focus` call, before the transport layer:
either the two payload bytes handed to `i2cset`, or the `ValueError`
raised by the range check (line 16-17). -/
inductive FocusResult
  | ok (data1 data2 : Nat)
  | rangeError
deriving DecidableEq

/-- `set_focus` (lines 11-26) up to the transport write: the range check,
then the byte encoding. The transport write happens only in the `ok` case. -/
def set_focus (step : ℤ) : FocusResult :=
  if 0 ≤ step ∧ step ≤ 1023 then .ok (encode step.toNat).1 (encode step.toNat).2
  else .rangeError

/-- The transport writes a `set_focus` call issues: one two-byte write in the
valid-range case, none when the range check raises (the `raise` on line 17
precedes the `subprocess.run` on line 23). -/
def set_focus_writes (step : ℤ) : List (Nat × Nat) :=
  match set_focus step with
  | .ok d1 d2 => [(d1, d2)]
  | .rangeError => []

/-- The loop state of `autofocus_demo` (lines 61-66): exactly the six mutable
variables, with their Python names. -/
structure AFState where
  max_step : Nat
  max_metric : ℚ
  last_metric : ℚ
  dec_frames : Nat
  step : Nat
  finished : Bool
deriving DecidableEq

/-- The initial assignment (lines 61-66). -/
def init : AFState := ⟨10, 0, 0, 0, 10, false⟩

/-- The reassignment on the restart key (lines 105-110). -/
def resetState : AFState := ⟨10, 0, 0, 0, 10, false⟩

/-- The guard of the tuning branch (line 77): `dec_frames < 6 and step < 1020`. -/
def searchCond (s : AFState) : Prop := s.dec_frames < 6 ∧ s.step < 1020

instance (s : AFState) : Decidable (searchCond s) := instDecidableAnd

/-- One loop iteration (lines 77-98) as a pure step: consume one sharpness
score, return the new state and the list of steps commanded to the actuator
this iteration.  The tuning branch (lines 77-92) commands `step`, updates the
best pair on `sharp > max_metric`, the decline counter on `sharp < last_metric`
(reset to 0 otherwise), sets `last_metric = sharp` and advances `step` by 10.
The `elif not finished` branch (lines 94-98) commands `max_step` once and sets
`finished`.  Otherwise the iteration only displays the frame. -/
def tick (s : AFState) (sharp : ℚ) : AFState × List Nat :=
  if searchCond s then
    (⟨if s.max_metric < sharp then s.step else s.max_step,
      if s.max_metric < sharp then sharp else s.max_metric,
      sharp,
      if sharp < s.last_metric then s.dec_frames + 1 else 0,
      s.step + 10,
      s.finished⟩, [s.step])
  else if s.finished = false then
    (⟨s.max_step, s.max_metric, s.last_metric, s.dec_frames, s.step, true⟩,
     [s.max_step])
  else (s, [])

/-- Iterate `tick` over a list of per-frame scores, accumulating the commanded
steps in order. -/
def run (s : AFState) : List ℚ → AFState × List Nat
  | [] => (s, [])
  | q :: qs =>
    let p := tick s q
    let r := run p.1 qs
    (r.1, p.2 ++ r.2)

/-- Every iteration of this score list, started from `s`, takes the tuning
branch (line 77) — i.e. the whole list is processed while SEARCHING. -/
def allSearching (s : AFState) : List ℚ → Bool
  | [] => true
  | q :: qs => decide (searchCond s) && allSearching (tick s q).1 qs

/-- Index of the first entry of the list that is `≥ m`; length of the list if
none is.  When `m` is the maximum of the list this is the position of the
first occurrence of that maximum. -/
def firstGE (m : ℚ) : List ℚ → Nat
  | [] => 0
  | x :: xs => if m ≤ x then 0 else firstGE m xs + 1

/-- Per-sample decline flags of a score sequence: the flag of a sample is
`true` when its score is strictly below the previous sample's score, the
previous score of the first sample being `last` (the controller seeds it
with 0).  Follows the spec's notion of a "sample where the score declined",
with the spec's `did not exceed` corrected to a strict decrease. -/
def declineFlags (last : ℚ) : List ℚ → List Bool
  | [] => []
  | q :: qs => decide (q < last) :: declineFlags q qs

/-- Modelled from the spec (corrected to strict declines): the number of
CONSECUTIVE declining samples ending at the most recent sample — the length
of the maximal all-declining suffix, read off as a `takeWhile` over the
reversed flag list. -/
def consecutiveDeclines (l : List ℚ) : Nat :=
  ((declineFlags 0 l).reverse.takeWhile id).length

/-- The decline counter's update rule of line 90 as a standalone fold:
increment on a strict decrease, reset to 0 otherwise.  Bridge between the
loop state and `consecutiveDeclines`. -/
def declineFold (last : ℚ) (dec : Nat) : List ℚ → Nat
  | [] => dec
  | q :: qs => declineFold q (if q < last then dec + 1 else 0) qs

/-- Outcome of a session run under injected transport faults. -/
inductive SessionOutcome
  | running (s : AFState)
  | i2cAborted (s : AFState) (failedStep : Nat)
  | crashed (failedStep : Nat)
deriving DecidableEq

/-- One loop iteration with an injected transport outcome `tok` for the
`i2cset` call of that iteration.  In the tuning branch the call sits in
`try/except subprocess.CalledProcessError` (lines 78-82): on failure the
script prints the I2C diagnostic and breaks out of the loop
(`i2cAborted`, carrying the step it was commanding).  The one-shot commit
`set_focus(max_step)` (line 96) is NOT guarded: a `CalledProcessError` there
propagates out of `autofocus_demo` (main catches only `KeyboardInterrupt`),
modelled as `crashed` with the step being committed. -/
def tickF (s : AFState) (sharp : ℚ) (tok : Bool) : SessionOutcome :=
  if searchCond s then
    if tok then .running (tick s sharp).1
    else .i2cAborted s s.step
  else if s.finished = false then
    if tok then .running ⟨s.max_step, s.max_metric, s.last_metric,
                          s.dec_frames, s.step, true⟩
    else .crashed s.max_step
  else .running s

/-- Iterate `tickF` over per-frame (score, transport-outcome) pairs, stopping
at the first abort or crash. -/
def runF (s : AFState) : List (ℚ × Bool) → SessionOutcome
  | [] => .running s
  | i :: is =>
    match tickF s i.1 i.2 with
    | .running s' => runF s' is
    | o => o

/-- The loop-state invariant of claim C10: `step` and `max_step` are multiples
of 10 with `10 ≤ max_step ≤ step ≤ 1020`, `max_step ≤ 1010`, and
`dec_frames ≤ 6`. -/
def Inv (s : AFState) : Prop :=
  10 ∣ s.step ∧ 10 ∣ s.max_step ∧ 10 ≤ s.max_step ∧ s.max_step ≤ s.step ∧
    s.step ≤ 1020 ∧ s.max_step ≤ 1010 ∧ s.dec_frames ≤ 6

instance (s : AFState) : Decidable (Inv s) := by unfold Inv; infer_instance

end Autofocus

namespace Autofocus

/-- C5: `set_focus(s)` raises the out-of-range `ValueError` iff `s < 0` or
`s > 1023`, and a failing call issues no transport write (the raise on line 17
precedes the `subprocess.run` on line 23). -/
theorem C5_range_enforcement (s : ℤ) :
    (set_focus s = .rangeError ↔ (s < 0 ∨ 1023 < s)) ∧
    (set_focus s = .rangeError → set_focus_writes s = []) := by
  constructor
  · unfold set_focus
    split
    · rename_i h
      constructor
      · intro hc; cases hc
      · intro hc
        rcases hc with hc | hc
        · exact absurd h.1 (not_le.2 hc)
        · exact absurd h.2 (not_le.2 hc)
    · rename_i h
      constructor
      · intro _
        rcases not_and_or.1 h with h1 | h2
        · exact Or.inl (not_le.1 h1)
        · exact Or.inr (not_le.1 h2)
      · intro _; rfl
  · intro h
    unfold set_focus_writes
    rw [h]

/-- Witness for C5: `set_focus (-1)` raises out-of-range and issues no
transport write. -/
theorem C5_range_enforcement_witness :
    set_focus (-1) = .rangeError ∧ set_focus_writes (-1) = [] :=
  ⟨(C5_range_enforcement (-1)).1.mpr (Or.inl (by norm_num)),
   (C5_range_enforcement (-1)).2
     ((C5_range_enforcement (-1)).1.mpr (Or.inl (by norm_num)))⟩

/-- C6 counterexample: the claim says that for `step = 63` the low payload
byte is `data2 = 48`; the code computes `value = 1008` and
`data2 = 1008 & 0xF0 = 240`, not 48. -/
theorem C6_counterexample : (encode 63).2 = 240 ∧ (encode 63).2 ≠ 48 := by
  decide

/-- C6 amended: the encoding computes `value = (step << 4) & 0x3FF0`,
`data1 = (value >> 8) & 0x3F`, `data2 = value & 0xF0`; for `step = 0` the
bytes are `(0, 0)`; for `step = 63`, `value = 1008`, `data1 = 3` and
`data2 = 240` (not 48); for `step = 1023` the bytes are `(63, 240)`; and for
every step in range both computed bytes fit in one byte. -/
theorem C6_encoding :
    (∀ step : Nat,
      encode step = (((step <<< 4) &&& 0x3FF0) >>> 8 &&& 0x3F,
                     ((step <<< 4) &&& 0x3FF0) &&& 0xF0)) ∧
    encode 0 = (0, 0) ∧
    ((63 <<< 4) &&& 0x3FF0) = 1008 ∧
    encode 63 = (3, 240) ∧
    encode 1023 = (63, 240) ∧
    ∀ s : Nat, s < 1024 → (encode s).1 < 256 ∧ (encode s).2 < 256 := by
  refine ⟨fun step => rfl, by decide, by decide, by decide, by decide, ?_⟩
  decide

/-- Witness for C6: the byte-fit bound instantiated at `step = 500`. -/
theorem C6_encoding_witness : (encode 500).1 < 256 ∧ (encode 500).2 < 256 :=
  C6_encoding.2.2.2.2.2 500 (by decide)

/-- C9: the encoding is lossless on the valid range: for every
`step ∈ [0, 1023]`, `(data1 << 4) | (data2 >> 4)` recovers `step`, hence the
byte pair determines the step uniquely. -/
theorem C9_encode_roundtrip :
    ∀ s : Nat, s < 1024 →
      ((encode s).1 <<< 4) ||| ((encode s).2 >>> 4) = s ∧
      ∀ t : Nat, t < 1024 → encode s = encode t → s = t := by
  have h : ∀ s : Nat, s < 1024 →
      ((encode s).1 <<< 4) ||| ((encode s).2 >>> 4) = s := by decide
  intro s hs
  refine ⟨h s hs, fun t ht he => ?_⟩
  rw [← h s hs, ← h t ht, he]

/-- Witness for C9: the round-trip at `step = 63`. -/
theorem C9_encode_roundtrip_witness :
    ((encode 63).1 <<< 4) ||| ((encode 63).2 >>> 4) = 63 :=
  (C9_encode_roundtrip 63 (by decide)).1

/-! ## Controller lemmas -/

/-- Shape of a tuning-branch iteration. -/
lemma tick_search (s : AFState) (q : ℚ) (h : searchCond s) :
    tick s q = (⟨if s.max_metric < q then s.step else s.max_step,
                 if s.max_metric < q then q else s.max_metric,
                 q,
                 if q < s.last_metric then s.dec_frames + 1 else 0,
                 s.step + 10, s.finished⟩, [s.step]) := by
  unfold tick
  rw [if_pos h]

/-- Shape of the one-shot commit iteration (lines 94-98). -/
lemma tick_commit (s : AFState) (q : ℚ) (h : ¬ searchCond s)
    (hf : s.finished = false) :
    tick s q = (⟨s.max_step, s.max_metric, s.last_metric, s.dec_frames,
                 s.step, true⟩, [s.max_step]) := by
  unfold tick
  rw [if_neg h, if_pos hf]

/-- An iteration after the commit changes nothing and commands nothing. -/
lemma tick_nop (s : AFState) (q : ℚ) (h : ¬ searchCond s)
    (hf : s.finished = true) : tick s q = (s, []) := by
  unfold tick
  rw [if_neg h, hf]
  simp

/-- A whole run after the commit changes nothing and commands nothing. -/
lemma run_nop : ∀ (l : List ℚ) (s : AFState), ¬ searchCond s →
    s.finished = true → run s l = (s, []) := by
  intro l
  induction l with
  | nil => intro s _ _; rfl
  | cons q qs ih =>
    intro s hs hf
    simp [run, tick_nop s q hs hf, ih s hs hf]

/-- `run` distributes over list append. -/
lemma run_append : ∀ (l1 l2 : List ℚ) (s : AFState),
    run s (l1 ++ l2) =
      ((run (run s l1).1 l2).1, (run s l1).2 ++ (run (run s l1).1 l2).2) := by
  intro l1
  induction l1 with
  | nil => intro l2 s; simp [run]
  | cons q qs ih => intro l2 s; simp [run, ih]

/-- C7: once the search guard has failed and `finished` is set, every further
iteration leaves the whole state unchanged and issues no actuator command;
and from a guard-failed state that is not yet finished, any nonempty run
performs the commit exactly once — it commands `max_step` a single time, sets
`finished`, and changes nothing else for the rest of the run. -/
theorem C7_idempotent_convergence (s : AFState) (l : List ℚ)
    (h : ¬ searchCond s) :
    (s.finished = true → run s l = (s, [])) ∧
    (s.finished = false → l ≠ [] →
      run s l = (⟨s.max_step, s.max_metric, s.last_metric, s.dec_frames,
                  s.step, true⟩, [s.max_step])) := by
  constructor
  · intro hf
    exact run_nop l s h hf
  · intro hf hl
    match l with
    | q :: qs =>
      have h' : ¬ searchCond (⟨s.max_step, s.max_metric, s.last_metric,
          s.dec_frames, s.step, true⟩ : AFState) := h
      simp [run, tick_commit s q h hf, run_nop qs _ h' rfl]

/-- Witness for C7: from a converged, finished state, two further ticks are
no-ops; from a converged, unfinished state, the same run commits once. -/
theorem C7_idempotent_convergence_witness :
    run ⟨20, 7, 3, 6, 80, true⟩ [1, 2] = (⟨20, 7, 3, 6, 80, true⟩, []) ∧
    run ⟨20, 7, 3, 6, 80, false⟩ [1, 2] = (⟨20, 7, 3, 6, 80, true⟩, [20]) :=
  ⟨(C7_idempotent_convergence ⟨20, 7, 3, 6, 80, true⟩ [1, 2]
      (by decide)).1 rfl,
   (C7_idempotent_convergence ⟨20, 7, 3, 6, 80, false⟩ [1, 2]
      (by decide)).2 rfl (by simp)⟩

/-- C2 counterexample: the code increments `dec_frames` only on a STRICT
decrease (`sharp < last_metric`, line 90) and resets it to 0 on a tie, so on
the scenario `[5, 8, 3, 2, 1, 0, 0]` the step-70 tick (score 0 after score 0)
RESETS `dec_frames` to 0 — it does not reach 6 — and the controller is still
searching, not converged, after those seven ticks. -/
theorem C2_counterexample :
    (run init [5, 8, 3, 2, 1, 0, 0]).1.dec_frames = 0 ∧
    (run init [5, 8, 3, 2, 1, 0, 0]).1.dec_frames ≠ 6 ∧
    (run init [5, 8, 3, 2, 1, 0, 0]).1.finished = false ∧
    searchCond (run init [5, 8, 3, 2, 1, 0, 0]).1 := by
  decide

/-- A tuning tick whose score strictly improves on the best and does not
decline from the previous score. -/
lemma tick_improve (s : AFState) (q : ℚ) (hs : searchCond s)
    (hm : s.max_metric < q) (hnd : ¬ q < s.last_metric) :
    tick s q = (⟨s.step, q, q, 0, s.step + 10, s.finished⟩, [s.step]) := by
  rw [tick_search s q hs, if_pos hm, if_pos hm, if_neg hnd]

/-- A tuning tick whose score neither improves on the best nor declines from
the previous score. -/
lemma tick_flat (s : AFState) (q : ℚ) (hs : searchCond s)
    (hm : ¬ s.max_metric < q) (hnd : ¬ q < s.last_metric) :
    tick s q = (⟨s.max_step, s.max_metric, q, 0, s.step + 10, s.finished⟩,
                [s.step]) := by
  rw [tick_search s q hs, if_neg hm, if_neg hm, if_neg hnd]

/-- A tuning tick whose score declines from the previous score without
improving on the best. -/
lemma tick_decline (s : AFState) (q : ℚ) (hs : searchCond s)
    (hm : ¬ s.max_metric < q) (hd : q < s.last_metric) :
    tick s q = (⟨s.max_step, s.max_metric, q, s.dec_frames + 1, s.step + 10,
                 s.finished⟩, [s.step]) := by
  rw [tick_search s q hs, if_neg hm, if_neg hm, if_pos hd]

/-- C3 counterexample: the sequence `[5, 4, 3, 2, 1, 0]` is strictly
decreasing, non-negative and of length 6, but after all six ticks from a
fresh state the controller has `dec_frames = 5` and is still searching — the
first sample cannot count as a decline (the initial `last_metric` is 0), so
six samples produce only five declines and no convergence. -/
theorem C3_counterexample :
    (run init [5, 4, 3, 2, 1, 0]).1 = ⟨10, 5, 0, 5, 70, false⟩ ∧
    searchCond (run init [5, 4, 3, 2, 1, 0]).1 ∧
    (run init [5, 4, 3, 2, 1, 0]).1.finished = false := by
  decide

/-- C3 amended: a strictly decreasing non-negative score sequence needs
SEVEN samples (one peak plus six declines), not six, to trigger the decline
exit: after the first six ticks the controller is still searching (not
before), the seventh tick drives `dec_frames` to exactly 6 so the guard
fails (not after), and the next tick commits `best_step = 10` — the step of
the first (highest) sample — with every later tick a no-op. -/
theorem C3_decline_convergence (a b c d e f g x : ℚ) (rest : List ℚ)
    (hg : 0 ≤ g) (h7 : g < f) (h6 : f < e) (h5 : e < d) (h4 : d < c)
    (h3 : c < b) (h2 : b < a) :
    searchCond (run init [a, b, c, d, e, f]).1 ∧
    (run init [a, b, c, d, e, f, g]).1 = ⟨10, a, g, 6, 80, false⟩ ∧
    ¬ searchCond (run init [a, b, c, d, e, f, g]).1 ∧
    run init ([a, b, c, d, e, f, g, x] ++ rest) =
      (⟨10, a, g, 6, 80, true⟩, [10, 20, 30, 40, 50, 60, 70, 10]) := by
  have ha : (0 : ℚ) < a := by linarith
  have hba : ¬ a < b := by linarith
  have hca : ¬ a < c := by linarith
  have hda : ¬ a < d := by linarith
  have hea : ¬ a < e := by linarith
  have hfa : ¬ a < f := by linarith
  have hga : ¬ a < g := by linarith
  have t1 : tick init a = (⟨10, a, a, 0, 20, false⟩, [10]) :=
    tick_improve init a (by decide) ha (by simpa [init] using not_lt.2 ha.le)
  have t2 : tick ⟨10, a, a, 0, 20, false⟩ b = (⟨10, a, b, 1, 30, false⟩, [20]) :=
    tick_decline _ b (by norm_num [searchCond]) hba h2
  have t3 : tick ⟨10, a, b, 1, 30, false⟩ c = (⟨10, a, c, 2, 40, false⟩, [30]) :=
    tick_decline _ c (by norm_num [searchCond]) hca h3
  have t4 : tick ⟨10, a, c, 2, 40, false⟩ d = (⟨10, a, d, 3, 50, false⟩, [40]) :=
    tick_decline _ d (by norm_num [searchCond]) hda h4
  have t5 : tick ⟨10, a, d, 3, 50, false⟩ e = (⟨10, a, e, 4, 60, false⟩, [50]) :=
    tick_decline _ e (by norm_num [searchCond]) hea h5
  have t6 : tick ⟨10, a, e, 4, 60, false⟩ f = (⟨10, a, f, 5, 70, false⟩, [60]) :=
    tick_decline _ f (by norm_num [searchCond]) hfa h6
  have t7 : tick ⟨10, a, f, 5, 70, false⟩ g = (⟨10, a, g, 6, 80, false⟩, [70]) :=
    tick_decline _ g (by norm_num [searchCond]) hga h7
  have t8 : tick ⟨10, a, g, 6, 80, false⟩ x =
      (⟨10, a, g, 6, 80, true⟩, [10]) :=
    tick_commit _ x (by norm_num [searchCond]) rfl
  have e6 : run init [a, b, c, d, e, f] = (⟨10, a, f, 5, 70, false⟩,
      [10, 20, 30, 40, 50, 60]) := by
    simp [run, t1, t2, t3, t4, t5, t6]
  have e7 : run init [a, b, c, d, e, f, g] = (⟨10, a, g, 6, 80, false⟩,
      [10, 20, 30, 40, 50, 60, 70]) := by
    simp [run, t1, t2, t3, t4, t5, t6, t7]
  refine ⟨by rw [e6]; norm_num [searchCond], by rw [e7], by rw [e7]; norm_num [searchCond], ?_⟩
  simp [run, t1, t2, t3, t4, t5, t6, t7, t8,
    run_nop rest ⟨10, a, g, 6, 80, true⟩ (by norm_num [searchCond]) rfl]

/-! ## Best-seen tracking (C1) -/

/-- The best-update conditional of line 86-88 is a `max`. -/
lemma if_lt_max (a b : ℚ) : (if a < b then b else a) = max a b := by
  split_ifs with h
  · exact (max_eq_right h.le).symm
  · exact (max_eq_left (not_lt.1 h)).symm

lemma run_cons_fst (s : AFState) (q : ℚ) (qs : List ℚ) :
    (run s (q :: qs)).1 = (run (tick s q).1 qs).1 := rfl

lemma run_cons_snd (s : AFState) (q : ℚ) (qs : List ℚ) :
    (run s (q :: qs)).2 = (tick s q).2 ++ (run (tick s q).1 qs).2 := rfl

lemma allSearching_cons {s : AFState} {q : ℚ} {qs : List ℚ}
    (h : allSearching s (q :: qs) = true) :
    searchCond s ∧ allSearching (tick s q).1 qs = true := by
  simpa [allSearching, Bool.and_eq_true, decide_eq_true_eq] using h

/-- The seed of a running maximum is below the result. -/
lemma init_le_foldl_max : ∀ (l : List ℚ) (b : ℚ), b ≤ l.foldl max b := by
  intro l
  induction l with
  | nil => intro b; exact le_refl b
  | cons q qs ih =>
    intro b
    rw [List.foldl_cons]
    exact le_trans (le_max_left b q) (ih (max b q))

/-- Every list entry is below the running maximum. -/
lemma mem_le_foldl_max : ∀ (l : List ℚ) (b x : ℚ), x ∈ l → x ≤ l.foldl max b := by
  intro l
  induction l with
  | nil => intro b x hx; cases hx
  | cons q qs ih =>
    intro b x hx
    rw [List.foldl_cons]
    rcases List.mem_cons.1 hx with rfl | hx
    · exact le_trans (le_max_right b x) (init_le_foldl_max qs (max b x))
    · exact ih (max b q) x hx

/-- The shape of a tuning tick, with the best update written as `max`. -/
lemma tick_fst (s : AFState) (q : ℚ) (hsc : searchCond s) :
    (tick s q).1 = ⟨if s.max_metric < q then s.step else s.max_step,
                    max s.max_metric q, q,
                    if q < s.last_metric then s.dec_frames + 1 else 0,
                    s.step + 10, s.finished⟩ := by
  rw [tick_search s q hsc, if_lt_max]

/-- Over an all-searching run, `max_metric` folds `max` over the scores. -/
lemma run_max_metric : ∀ (l : List ℚ) (s : AFState), allSearching s l = true →
    (run s l).1.max_metric = l.foldl max s.max_metric := by
  intro l
  induction l with
  | nil => intro s _; rfl
  | cons q qs ih =>
    intro s h
    obtain ⟨hsc, h2⟩ := allSearching_cons h
    rw [run_cons_fst, tick_fst s q hsc]
    rw [tick_fst s q hsc] at h2
    rw [ih _ h2, List.foldl_cons]

/-- Over an all-searching run, `max_step` lands on the step of the first
score that strictly exceeds the starting best — the first occurrence of the
overall maximum when one exists — and stays put otherwise. -/
lemma run_max_step : ∀ (l : List ℚ) (s : AFState), allSearching s l = true →
    (run s l).1.max_step =
      if s.max_metric < l.foldl max s.max_metric
      then s.step + 10 * firstGE (l.foldl max s.max_metric) l
      else s.max_step := by
  intro l
  induction l with
  | nil =>
    intro s _
    rw [List.foldl_nil, if_neg (lt_irrefl _)]
    rfl
  | cons q qs ih =>
    intro s h
    obtain ⟨hsc, h2⟩ := allSearching_cons h
    rw [run_cons_fst, tick_fst s q hsc]
    rw [tick_fst s q hsc] at h2
    rw [ih _ h2]
    dsimp only
    rw [List.foldl_cons]
    rcases lt_or_ge (max s.max_metric q) (qs.foldl max (max s.max_metric q))
      with hA | hB
    · rw [if_pos hA,
        if_pos (lt_of_le_of_lt (le_max_left s.max_metric q) hA)]
      simp only [firstGE]
      rw [if_neg (not_le.2 (lt_of_le_of_lt (le_max_right s.max_metric q) hA))]
      ring
    · have hM : qs.foldl max (max s.max_metric q) = max s.max_metric q :=
        le_antisymm hB (init_le_foldl_max qs _)
      rw [if_neg (not_lt.2 hB), hM]
      rcases lt_or_ge s.max_metric q with hq | hq
      · rw [if_pos hq, max_eq_right hq.le, if_pos hq]
        simp only [firstGE]
        rw [if_pos (le_refl q)]
        ring
      · rw [if_neg (not_lt.2 hq), max_eq_left hq, if_neg (lt_irrefl _)]

/-- C1: over any nonempty sequence of non-negative scores that is processed
entirely in the tuning branch, the final `max_metric` is the fold of `max`
over the scores seeded with the initial 0 — the true maximum, as every score
is bounded by it — and the final `max_step` is `10 + 10·i` where `i` is the
index of the FIRST score reaching that maximum (`firstGE`); a later tied
score never moves `max_step`, since the update on line 86 requires a strict
increase. -/
theorem C1_best_tracking (l : List ℚ) (hne : l ≠ [])
    (hpos : ∀ x ∈ l, 0 ≤ x) (hs : allSearching init l = true) :
    (run init l).1.max_metric = l.foldl max 0 ∧
    (∀ x ∈ l, x ≤ l.foldl max 0) ∧
    (run init l).1.max_step = 10 + 10 * firstGE (l.foldl max 0) l := by
  have hmm : (run init l).1.max_metric = l.foldl max 0 :=
    run_max_metric l init hs
  have hms : (run init l).1.max_step =
      if (0 : ℚ) < l.foldl max 0
      then 10 + 10 * firstGE (l.foldl max 0) l else 10 :=
    run_max_step l init hs
  refine ⟨hmm, fun x hx => mem_le_foldl_max l 0 x hx, ?_⟩
  rcases eq_or_lt_of_le (init_le_foldl_max l 0) with hM0 | hMpos
  · obtain ⟨x, xs, rfl⟩ := List.exists_cons_of_ne_nil hne
    have hle : (x :: xs).foldl max 0 ≤ x :=
      hM0 ▸ hpos x (List.mem_cons_self x xs)
    rw [hms, if_neg (hM0 ▸ lt_irrefl (0 : ℚ))]
    simp only [firstGE]
    rw [if_pos hle]
  · rw [hms, if_pos hMpos]

/-- Witness for C1: the tracking result on the scores `[5, 8, 3]` — maximum
8, first reached by the second sample, so `max_step = 20`. -/
theorem C1_best_tracking_witness :
    (run init [5, 8, 3]).1.max_metric = [5, 8, 3].foldl max 0 ∧
    (∀ x ∈ [(5 : ℚ), 8, 3], x ≤ [5, 8, 3].foldl max 0) ∧
    (run init [5, 8, 3]).1.max_step =
      10 + 10 * firstGE ([5, 8, 3].foldl max 0) [5, 8, 3] :=
  C1_best_tracking [5, 8, 3] (by simp) (by decide) (by decide)

/-! ## Decline counting (C2) -/

lemma declineFlags_length : ∀ (l : List ℚ) (last : ℚ),
    (declineFlags last l).length = l.length := by
  intro l
  induction l with
  | nil => intro last; rfl
  | cons q qs ih => intro last; simp [declineFlags, ih]

/-- `takeWhile id` passes through an all-true prefix. -/
lemma takeWhile_id_append_all : ∀ (l l' : List Bool), (∀ x ∈ l, x = true) →
    (l ++ l').takeWhile id = l ++ l'.takeWhile id := by
  intro l
  induction l with
  | nil => intro l' _; rfl
  | cons a as ih =>
    intro l' h
    have ha := h a (List.mem_cons_self a as)
    subst ha
    rw [List.cons_append, List.takeWhile_cons]
    simp [ih l' (fun x hx => h x (List.mem_cons_of_mem _ hx))]

/-- `takeWhile id` never reaches past a `false`, so a suffix after one is
irrelevant. -/
lemma takeWhile_id_append_false : ∀ (l l' : List Bool),
    (∃ x ∈ l, x = false) → (l ++ l').takeWhile id = l.takeWhile id := by
  intro l
  induction l with
  | nil =>
    intro l' h
    obtain ⟨x, hx, _⟩ := h
    cases hx
  | cons a as ih =>
    intro l' h
    cases a with
    | false =>
      rw [List.cons_append, List.takeWhile_cons, List.takeWhile_cons]
      simp
    | true =>
      obtain ⟨x, hx, hxf⟩ := h
      rcases List.mem_cons.1 hx with rfl | hx2
      · exact absurd hxf (by simp)
      · rw [List.cons_append, List.takeWhile_cons, List.takeWhile_cons]
        simp [ih l' ⟨x, hx2, hxf⟩]

lemma exists_false_of_not_all {fs : List Bool} (h : ¬ fs.all id = true) :
    ∃ x ∈ fs, x = false := by
  by_contra hc
  push_neg at hc
  refine h (List.all_eq_true.2 fun x hx => ?_)
  cases hxv : x with
  | false => exact absurd hxv (hc x hx)
  | true => rfl

/-- The reset-on-non-decline fold of line 90 computes exactly the length of
the maximal declining suffix (or counts every sample on top of the seed when
the whole list declines). -/
lemma declineFold_eq_streak : ∀ (l : List ℚ) (last : ℚ) (dec : Nat),
    declineFold last dec l =
      if (declineFlags last l).all id = true
      then dec + l.length
      else ((declineFlags last l).reverse.takeWhile id).length := by
  intro l
  induction l with
  | nil =>
    intro last dec
    simp [declineFold, declineFlags]
  | cons q qs ih =>
    intro last dec
    rw [show declineFold last dec (q :: qs)
        = declineFold q (if q < last then dec + 1 else 0) qs from rfl]
    rw [ih q _]
    rw [show declineFlags last (q :: qs)
        = decide (q < last) :: declineFlags q qs from rfl]
    by_cases hql : q < last
    · rw [decide_eq_true hql, if_pos hql]
      have hac : ((true :: declineFlags q qs).all id = true)
          ↔ ((declineFlags q qs).all id = true) := by
        rw [List.all_cons]
        simp
      by_cases hall : (declineFlags q qs).all id = true
      · rw [if_pos hall, if_pos (hac.2 hall), List.length_cons]
        omega
      · rw [if_neg hall, if_neg (fun hc => hall (hac.1 hc))]
        obtain ⟨x, hx, hxf⟩ := exists_false_of_not_all hall
        rw [List.reverse_cons,
          takeWhile_id_append_false _ _ ⟨x, List.mem_reverse.2 hx, hxf⟩]
    · rw [decide_eq_false hql, if_neg hql]
      have hfc : ¬ ((false :: declineFlags q qs).all id = true) := by
        rw [List.all_cons]
        simp
      rw [if_neg hfc, List.reverse_cons]
      by_cases hall : (declineFlags q qs).all id = true
      · rw [if_pos hall,
          takeWhile_id_append_all _ _ (fun x hx =>
            List.all_eq_true.1 hall x (List.mem_reverse.1 hx))]
        rw [show List.takeWhile id [false] = ([] : List Bool) from rfl,
          List.append_nil, List.length_reverse, declineFlags_length]
        omega
      · rw [if_neg hall]
        obtain ⟨x, hx, hxf⟩ := exists_false_of_not_all hall
        rw [takeWhile_id_append_false _ _ ⟨x, List.mem_reverse.2 hx, hxf⟩]

/-- Over an all-searching run, the controller's `dec_frames` is the line-90
fold of the scores seeded with the state's own `last_metric`/`dec_frames`. -/
lemma run_dec_frames : ∀ (l : List ℚ) (s : AFState), allSearching s l = true →
    (run s l).1.dec_frames = declineFold s.last_metric s.dec_frames l := by
  intro l
  induction l with
  | nil => intro s _; rfl
  | cons q qs ih =>
    intro s h
    obtain ⟨hsc, h2⟩ := allSearching_cons h
    rw [run_cons_fst, tick_fst s q hsc]
    rw [tick_fst s q hsc] at h2
    rw [ih _ h2]
    rfl

/-- C2 amended: `dec_frames` counts the CONSECUTIVE most-recent samples
whose score STRICTLY decreased from the previous sample — the line-90 rule
increments on `score < last_score` and resets to 0 otherwise, so a tie or a
rise resets the count; over any non-negative score sequence processed while
searching, the final `dec_frames` equals `consecutiveDeclines`, the length
of the maximal declining suffix.  On the spec's scenario
`[5, 8, 3, 2, 1, 0, 0]` at steps `10..70`, the counter reaches 4 at the
step-60 tick and resets to 0 at the step-70 tick (tied score 0 after 0), so
the controller is still searching there; the best-tracking part of the
scenario does hold: `best_step = 20`, `best_score = 8`. -/
theorem C2_decline_rule :
    (∀ l : List ℚ, (∀ x ∈ l, 0 ≤ x) → allSearching init l = true →
      (run init l).1.dec_frames = consecutiveDeclines l) ∧
    (run init [5, 8, 3, 2, 1, 0]).1.dec_frames = 4 ∧
    (run init [5, 8, 3, 2, 1, 0, 0]).1 = ⟨20, 8, 0, 0, 80, false⟩ := by
  refine ⟨fun l hpos hs => ?_, by decide, by decide⟩
  rw [run_dec_frames l init hs]
  show declineFold 0 0 l = consecutiveDeclines l
  unfold consecutiveDeclines
  rw [declineFold_eq_streak]
  match l, hpos with
  | [], _ => rfl
  | x :: xs, hpos =>
    have hx : ¬ x < 0 := not_lt.2 (hpos x (List.mem_cons_self x xs))
    have hfl : declineFlags 0 (x :: xs) = false :: declineFlags x xs := by
      rw [show declineFlags (0 : ℚ) (x :: xs)
          = decide (x < 0) :: declineFlags x xs from rfl, decide_eq_false hx]
    rw [hfl, if_neg (by simp [List.all_cons])]

/-- Witness for C2: the counting characterization on the scores `[4, 2]` —
one trailing decline, so `dec_frames = 1 = consecutiveDeclines [4, 2]`. -/
theorem C2_decline_rule_witness :
    (run init [4, 2]).1.dec_frames = consecutiveDeclines [4, 2] :=
  C2_decline_rule.1 [4, 2] (by decide) (by decide)

/-! ## Loop invariant (C10) and safety bound (C4) -/

/-- `run` on a cons, as one equation. -/
lemma run_cons (s : AFState) (q : ℚ) (qs : List ℚ) :
    run s (q :: qs) =
      ((run (tick s q).1 qs).1, (tick s q).2 ++ (run (tick s q).1 qs).2) := rfl

/-- One tick preserves the loop invariant, and every step it commands is at
most 1010. -/
lemma tick_inv (s : AFState) (q : ℚ) (h : Inv s) :
    Inv (tick s q).1 ∧ ∀ x ∈ (tick s q).2, x ≤ 1010 := by
  obtain ⟨d1, d2, d3, d4, d5, d6, d7⟩ := h
  by_cases hsc : searchCond s
  · obtain ⟨hd, hs1020⟩ := hsc
    rw [tick_search s q ⟨hd, hs1020⟩]
    constructor
    · unfold Inv
      dsimp only
      split_ifs <;> omega
    · intro x hx
      dsimp only at hx
      simp only [List.mem_singleton] at hx
      omega
  · unfold tick
    rw [if_neg hsc]
    by_cases hf : s.finished = false
    · rw [if_pos hf]
      refine ⟨⟨d1, d2, d3, d4, d5, d6, d7⟩, ?_⟩
      intro x hx
      simp only [List.mem_singleton] at hx
      omega
    · rw [if_neg hf]
      exact ⟨⟨d1, d2, d3, d4, d5, d6, d7⟩, fun x hx => absurd hx
        (List.not_mem_nil x)⟩

/-- A whole run preserves the loop invariant, and every commanded step is at
most 1010. -/
lemma run_inv : ∀ (l : List ℚ) (s : AFState), Inv s →
    Inv (run s l).1 ∧ ∀ x ∈ (run s l).2, x ≤ 1010 := by
  intro l
  induction l with
  | nil => intro s h; exact ⟨h, fun x hx => absurd hx (List.not_mem_nil x)⟩
  | cons q qs ih =>
    intro s h
    obtain ⟨h1, h2⟩ := tick_inv s q h
    obtain ⟨h3, h4⟩ := ih _ h1
    refine ⟨by rw [run_cons_fst]; exact h3, ?_⟩
    intro x hx
    rw [run_cons_snd] at hx
    rcases List.mem_append.1 hx with hx | hx
    · exact h2 x hx
    · exact h4 x hx

/-- A step of at most 1010 passes the `set_focus` range check. -/
lemma set_focus_ok_of_le {x : Nat} (h : x ≤ 1010) :
    set_focus (x : ℤ) ≠ .rangeError := by
  unfold set_focus
  rw [if_pos ⟨Int.ofNat_nonneg x,
    by exact_mod_cast le_trans h (by norm_num)⟩]
  exact fun hc => FocusResult.noConfusion hc

/-- C10: the invariant — `step` and `max_step` multiples of 10 with
`10 ≤ max_step ≤ step ≤ 1020`, `max_step ≤ 1010`, `dec_frames ≤ 6` — holds
initially and after a reset, and is preserved by every tick; consequently
every step the loop hands to `set_focus` is at most 1010, hence inside
`[0, 1023]`, and the range-error branch is unreachable from the loop. -/
theorem C10_loop_invariant :
    Inv init ∧ Inv resetState ∧
    ∀ (s : AFState) (q : ℚ), Inv s →
      Inv (tick s q).1 ∧
      ∀ x ∈ (tick s q).2, x ≤ 1010 ∧ set_focus (x : ℤ) ≠ .rangeError := by
  refine ⟨by decide, by decide, fun s q h => ?_⟩
  obtain ⟨h1, h2⟩ := tick_inv s q h
  exact ⟨h1, fun x hx => ⟨h2 x hx, set_focus_ok_of_le (h2 x hx)⟩⟩

/-- Witness for C10: the invariant step at the initial state with score 5. -/
theorem C10_loop_invariant_witness :
    Inv (tick init 5).1 ∧
    ∀ x ∈ (tick init 5).2, x ≤ 1010 ∧ set_focus (x : ℤ) ≠ .rangeError :=
  C10_loop_invariant.2.2 init 5 (by decide)

/-- From a state that has already recorded a constant score `c` as both best
and last, `n` further ticks on the same score keep declining impossible: the
state only advances `step`, commanding `step, step+10, …` while inside the
safety bound. -/
lemma run_const (c : ℚ) : ∀ (n : Nat) (ms st : Nat), st + 10 * n ≤ 1020 →
    run ⟨ms, c, c, 0, st, false⟩ (List.replicate n c) =
      (⟨ms, c, c, 0, st + 10 * n, false⟩,
       (List.range n).map (fun i => st + 10 * i)) := by
  intro n
  induction n with
  | zero =>
    intro ms st h
    simp [run]
  | succ n ih =>
    intro ms st h
    have hst : st < 1020 := by omega
    have ht : tick ⟨ms, c, c, 0, st, false⟩ c =
        (⟨ms, c, c, 0, st + 10, false⟩, [st]) :=
      tick_flat _ c ⟨by norm_num, hst⟩ (lt_irrefl c) (lt_irrefl c)
    rw [List.replicate_succ, run_cons, ht]
    dsimp only
    rw [ih ms (st + 10) (by omega)]
    have h1 : st + 10 + 10 * n = st + 10 * (n + 1) := by omega
    have h2 : ([st] ++ (List.range n).map (fun i => st + 10 + 10 * i)
          : List Nat) = (List.range (n + 1)).map (fun i => st + 10 * i) := by
      rw [List.range_succ_eq_map, List.map_cons, List.map_map]
      simp only [List.singleton_append, List.cons.injEq]
      constructor
      · omega
      · refine List.map_congr_left fun i _ => ?_
        simp only [Function.comp_apply]
        omega
    rw [h1, h2]

/-- The first tick from the initial state on a non-negative score `c`
records `c` as best and last and commands step 10. -/
lemma tick_init_const (c : ℚ) (hc : 0 ≤ c) :
    tick init c = (⟨10, c, c, 0, 20, false⟩, [10]) := by
  rw [tick_search init c (by decide)]
  simp [init, ite_self, if_lt_max, max_eq_right hc, hc.not_lt]

/-- C4: from the initial state, a constant non-negative score never declines,
so the controller sweeps `10, 20, …, 1010`; after 101 ticks `step` is 1020,
the controller is still unfinished (and was at every earlier tick), the
102nd tick performs the convergence commit, and across any number of ticks
no commanded step exceeds 1020 (in fact 1010). -/
theorem C4_safety_bound (c : ℚ) (hc : 0 ≤ c) :
    (run init (List.replicate 101 c)).1.finished = false ∧
    (run init (List.replicate 101 c)).1.step = 1020 ∧
    (∀ k, k ≤ 101 → (run init (List.replicate k c)).1.finished = false) ∧
    (run init (List.replicate 102 c)).1 = ⟨10, c, c, 0, 1020, true⟩ ∧
    ∀ (n : Nat), ∀ x ∈ (run init (List.replicate n c)).2, x ≤ 1020 := by
  have hrep : ∀ k : Nat, List.replicate (k + 1) c = c :: List.replicate k c :=
    fun k => List.replicate_succ c k
  have hk : ∀ k : Nat, k ≤ 100 →
      run init (List.replicate (k + 1) c) =
        (⟨10, c, c, 0, 20 + 10 * k, false⟩,
         [10] ++ (List.range k).map (fun i => 20 + 10 * i)) := by
    intro k hk100
    rw [hrep k, run_cons, tick_init_const c hc]
    dsimp only
    rw [run_const c k 10 20 (by omega)]
  have h101 : run init (List.replicate 101 c) =
      (⟨10, c, c, 0, 1020, false⟩,
       [10] ++ (List.range 100).map (fun i => 20 + 10 * i)) := by
    have := hk 100 (le_refl 100)
    norm_num at this
    norm_num [this]
  refine ⟨by rw [h101], by rw [h101], ?_, ?_, ?_⟩
  · intro k hk101
    match k with
    | 0 => rfl
    | m + 1 =>
      rw [hk m (by omega)]
  · have hsplit : List.replicate 102 c = List.replicate 101 c ++ [c] :=
      List.replicate_succ' 101 c
    rw [hsplit, run_append, h101]
    dsimp only
    have hcommit : run ⟨10, c, c, 0, 1020, false⟩ [c] =
        (⟨10, c, c, 0, 1020, true⟩, [10]) := by
      rw [run_cons, tick_commit _ c (by norm_num [searchCond]) rfl]
      rfl
    rw [hcommit]
  · intro n x hx
    have := (run_inv (List.replicate n c) init (by decide)).2 x hx
    omega

/-- Witness for C4: the safety-bound behaviour at constant score 1: the
102nd tick has committed with `step` parked at 1020. -/
theorem C4_safety_bound_witness :
    (run init (List.replicate 102 1)).1 = ⟨10, 1, 1, 0, 1020, true⟩ :=
  (C4_safety_bound 1 (by norm_num)).2.2.2.1

/-! ## Transport failures (C8) -/

/-- C8 counterexample: seven strictly decreasing scores drive the controller
to the convergence commit; a transport failure on that commit write (line 96,
outside the `try/except` of lines 78-82) propagates as an uncaught
`CalledProcessError` — the session ends by a crash, not by the loop's printed
I2C diagnostic, refuting "there is no error path that terminates the session
without a message". -/
theorem C8_counterexample :
    runF init [(7, true), (6, true), (5, true), (4, true), (3, true),
               (2, true), (1, true), (0, false)] = .crashed 10 := by
  decide

/-- C8 amended: a transport failure during the search sweep is caught and
ends the session with the diagnostic carrying the step that failed
(`i2cAborted`), but a transport failure on the one-shot convergence commit
is NOT caught — it propagates out of the session as an uncaught exception
(`crashed`); after the commit no further write exists to fail. -/
theorem C8_transport_failure (s : AFState) (q : ℚ) :
    (searchCond s → tickF s q false = .i2cAborted s s.step) ∧
    (¬ searchCond s → s.finished = false → tickF s q false = .crashed s.max_step) ∧
    (¬ searchCond s → s.finished = true → tickF s q false = .running s) := by
  refine ⟨fun h => ?_, fun h hf => ?_, fun h hf => ?_⟩
  · unfold tickF
    rw [if_pos h]
    rfl
  · unfold tickF
    rw [if_neg h, if_pos hf]
    rfl
  · unfold tickF
    rw [if_neg h, hf]
    rfl

/-- Witness for C8: a sweep-tick transport failure at the initial state
aborts with the diagnostic naming step 10. -/
theorem C8_transport_failure_witness :
    tickF init 5 false = .i2cAborted init 10 :=
  (C8_transport_failure init 5).1 (by decide)

/-- Witness for C3: the amended convergence behaviour on the concrete
strictly decreasing sequence `[7, 6, 5, 4, 3, 2, 1]` followed by one more
tick; the commit commands step 10. -/
theorem C3_decline_convergence_witness :
    run init ([7, 6, 5, 4, 3, 2, 1, 0] ++ []) =
      (⟨10, 7, 1, 6, 80, true⟩, [10, 20, 30, 40, 50, 60, 70, 10]) :=
  (C3_decline_convergence 7 6 5 4 3 2 1 0 [] (by norm_num) (by norm_num)
    (by norm_num) (by norm_num) (by norm_num) (by norm_num) (by norm_num)).2.2.2

end Autofocus
